import Mathlib

/-
Verification development for the WAVECAR decoder in davtk (src/davtk/Wavecar.py).

Shallow embedding conventions:
  * float64 values are modelled as exact rationals (every IEEE double is a
    rational number); `norm(x) ** 2` in the energy test is modelled as the sum
    of squares, which is what the float expression computes up to rounding;
  * complex coefficients are pairs of rationals (`CQ`) so that concrete
    executions are decidable; the wavefunction evaluator, which genuinely
    needs `exp`, casts them into `ℂ`;
  * numpy arrays of integer triples become `GVec`; python lists become
    `List`; attribute mutation becomes explicit state passing.
-/

/-- A 3-vector of rationals (a numpy float64 3-array, e.g. a k-point). -/
structure Vec3 where
  x : ℚ
  y : ℚ
  z : ℚ
deriving DecidableEq

def Vec3.zero : Vec3 := ⟨0, 0, 0⟩

instance : Inhabited Vec3 := ⟨Vec3.zero⟩

def Vec3.add (u v : Vec3) : Vec3 := ⟨u.x + v.x, u.y + v.y, u.z + v.z⟩

def Vec3.dot (u v : Vec3) : ℚ := u.x * v.x + u.y * v.y + u.z * v.z

/-- A 3×3 matrix of rationals stored as rows (the reciprocal lattice `self.b`). -/
structure Mat3 where
  r1 : Vec3
  r2 : Vec3
  r3 : Vec3
deriving DecidableEq

/-- `np.dot(v, b)` for a row 3-vector `v` and 3×3 matrix `b`:
the linear combination `v.x • row1 + v.y • row2 + v.z • row3`. -/
def Mat3.vecMul (v : Vec3) (b : Mat3) : Vec3 :=
  ⟨v.x * b.r1.x + v.y * b.r2.x + v.z * b.r3.x,
   v.x * b.r1.y + v.y * b.r2.y + v.z * b.r3.y,
   v.x * b.r1.z + v.y * b.r2.z + v.z * b.r3.z⟩

/-- An integer G-vector triple `(k1, j2, i3)` as built at Wavecar.py:300. -/
structure GVec where
  g1 : ℤ
  g2 : ℤ
  g3 : ℤ
deriving DecidableEq

def GVec.zero : GVec := ⟨0, 0, 0⟩

instance : Inhabited GVec := ⟨GVec.zero⟩

def GVec.neg (g : GVec) : GVec := ⟨-g.g1, -g.g2, -g.g3⟩

def GVec.toVec3 (g : GVec) : Vec3 := ⟨(g.g1 : ℚ), (g.g2 : ℚ), (g.g3 : ℚ)⟩

/-- The index wrap at Wavecar.py:293/295/297:
`x - 2*nb - 1 if x > nb else x`, mapping `0..2*nb` onto `0..nb, -nb..-1`. -/
def wrapIdx (nb : ℕ) (x : ℕ) : ℤ :=
  if (x : ℤ) > (nb : ℤ) then (x : ℤ) - 2 * (nb : ℤ) - 1 else (x : ℤ)

/-- Geometry data cached on the decoder and used by `_generate_G_points`:
per-axis bounds `self._nbmax`, reciprocal lattice `self.b`, the physical
constant `self._C` and the cutoff `self.encut`. -/
structure Geom where
  nbmax1 : ℕ
  nbmax2 : ℕ
  nbmax3 : ℕ
  b : Mat3
  C : ℚ
  encut : ℚ
deriving DecidableEq

/-- The kinetic-energy value tested at Wavecar.py:301-303:
`v = kpoint + G`, `g = norm(np.dot(v, b))`, `E = g**2 / C`; since
`norm(w) ** 2` equals the sum of the squared components exactly, this is
`(Σ of squares of v·b) / C`. -/
def kinE (P : Geom) (kpoint : Vec3) (g : GVec) : ℚ :=
  let v := Vec3.add kpoint g.toVec3
  let gb := Mat3.vecMul v P.b
  (Vec3.dot gb gb) / P.C

/-- `Wavecar._generate_G_points` (Wavecar.py:270-306), translated verbatim,
including the python operator precedence of the skip test at line 298:
`gamma and (k1 == 0 and j2 < 0) or (k1 == 0 and j2 == 0 and i3 < 0)`
parses as `(gamma and (k1 == 0 and j2 < 0)) or (k1 == 0 and j2 == 0 and i3 < 0)`. -/
def generateGPoints (P : Geom) (kpoint : Vec3) (gamma : Bool) : List GVec :=
  let kmax := if gamma then P.nbmax1 + 1 else 2 * P.nbmax1 + 1
  (List.range (2 * P.nbmax3 + 1)).flatMap (fun i =>
    let i3 := wrapIdx P.nbmax3 i
    (List.range (2 * P.nbmax2 + 1)).flatMap (fun j =>
      let j2 := wrapIdx P.nbmax2 j
      (List.range kmax).filterMap (fun k =>
        let k1 := wrapIdx P.nbmax1 k
        if (gamma = true ∧ (k1 = 0 ∧ j2 < 0)) ∨ (k1 = 0 ∧ j2 = 0 ∧ i3 < 0) then
          none
        else if kinE P kpoint ⟨k1, j2, i3⟩ < P.encut then
          some ⟨k1, j2, i3⟩
        else
          none)))

/-- Default-mode enumeration as the spec words it (spec §4.3, first
paragraph): every triple of the centered box, filtered by the strict energy
test alone, in the same nested axis-3/axis-2/axis-1 order.  This is the
spec-side definition used to exhibit the divergence of claim C2; it is not a
translation of the source. -/
def specGPointsDefault (P : Geom) (kpoint : Vec3) : List GVec :=
  (List.range (2 * P.nbmax3 + 1)).flatMap (fun i =>
    let i3 := wrapIdx P.nbmax3 i
    (List.range (2 * P.nbmax2 + 1)).flatMap (fun j =>
      let j2 := wrapIdx P.nbmax2 j
      (List.range (2 * P.nbmax1 + 1)).filterMap (fun k =>
        let k1 := wrapIdx P.nbmax1 k
        if kinE P kpoint ⟨k1, j2, i3⟩ < P.encut then
          some ⟨k1, j2, i3⟩
        else
          none)))

/-- Concrete geometry: nbmax = (1,1,1), identity reciprocal lattice, C = 1,
encut = 2.  With kpoint (0,0,0) the energy test accepts exactly the triples
with squared norm < 2, i.e. the origin and the six unit vectors. -/
def P0 : Geom :=
  { nbmax1 := 1, nbmax2 := 1, nbmax3 := 1
    b := ⟨⟨1, 0, 0⟩, ⟨0, 1, 0⟩, ⟨0, 0, 1⟩⟩
    C := 1, encut := 2 }

/-- Claim C2 (code_bug evidence): in default (non-gamma) mode the candidate
G = (0,0,-1) lies in the centered box and passes the strict energy test, and
the spec-side enumeration contains it, yet `_generate_G_points` omits it:
the python skip condition at Wavecar.py:298 fires for `k1 = 0, j2 = 0,
i3 < 0` even when `gamma` is false, because `and` binds tighter than `or`. -/
theorem generateGPoints_default_drops_neg_axis3 :
    (⟨0, 0, -1⟩ : GVec) ∉ generateGPoints P0 Vec3.zero false ∧
    (⟨0, 0, -1⟩ : GVec) ∈ specGPointsDefault P0 Vec3.zero ∧
    kinE P0 Vec3.zero ⟨0, 0, -1⟩ < P0.encut := by
  refine ⟨?_, ?_, ?_⟩ <;>
    norm_num [generateGPoints, specGPointsDefault, P0, kinE, wrapIdx, Vec3.zero,
      Vec3.add, Vec3.dot, Mat3.vecMul, GVec.toVec3, List.range_succ, List.filterMap_cons]

/-- Structure of a generated G-vector: each component is an index wrap of a
loop counter in range, the skip condition of line 298-299 did not fire, and
the strict energy test of line 304 passed. -/
lemma generateGPoints_shape {P : Geom} {kpoint : Vec3} {gamma : Bool} {G : GVec}
    (h : G ∈ generateGPoints P kpoint gamma) :
    (∃ k < (if gamma = true then P.nbmax1 + 1 else 2 * P.nbmax1 + 1),
        G.g1 = wrapIdx P.nbmax1 k) ∧
    (∃ j < 2 * P.nbmax2 + 1, G.g2 = wrapIdx P.nbmax2 j) ∧
    (∃ i < 2 * P.nbmax3 + 1, G.g3 = wrapIdx P.nbmax3 i) ∧
    ¬((gamma = true ∧ G.g1 = 0 ∧ G.g2 < 0) ∨ (G.g1 = 0 ∧ G.g2 = 0 ∧ G.g3 < 0)) ∧
    kinE P kpoint G < P.encut := by
  simp only [generateGPoints, List.mem_flatMap, List.mem_filterMap, List.mem_range] at h
  obtain ⟨i, hi, j, hj, k, hk, hG⟩ := h
  by_cases hskip : (gamma = true ∧ (wrapIdx P.nbmax1 k = 0 ∧ wrapIdx P.nbmax2 j < 0)) ∨
      (wrapIdx P.nbmax1 k = 0 ∧ wrapIdx P.nbmax2 j = 0 ∧ wrapIdx P.nbmax3 i < 0)
  · rw [if_pos hskip] at hG
    exact absurd hG (by simp)
  · rw [if_neg hskip] at hG
    by_cases hE : kinE P kpoint ⟨wrapIdx P.nbmax1 k, wrapIdx P.nbmax2 j, wrapIdx P.nbmax3 i⟩
        < P.encut
    · rw [if_pos hE] at hG
      have hGeq := Option.some.inj hG
      subst hGeq
      exact ⟨⟨k, hk, rfl⟩, ⟨j, hj, rfl⟩, ⟨i, hi, rfl⟩, by tauto, hE⟩
    · rw [if_neg hE] at hG
      exact absurd hG (by simp)

lemma wrapIdx_eq_of_le {nb k : ℕ} (h : k < nb + 1) : wrapIdx nb k = (k : ℤ) := by
  unfold wrapIdx
  split <;> omega

lemma wrapIdx_bounds {nb k : ℕ} (h : k < 2 * nb + 1) :
    -(nb : ℤ) ≤ wrapIdx nb k ∧ wrapIdx nb k ≤ (nb : ℤ) := by
  unfold wrapIdx
  split <;> omega

/-- In gamma mode the emitted half-space: non-negative primary component, and
on its boundary non-negative secondary, then tertiary component. -/
lemma generateGPoints_gamma_sel {P : Geom} {kpoint : Vec3} {G : GVec}
    (h : G ∈ generateGPoints P kpoint true) :
    0 ≤ G.g1 ∧ (G.g1 = 0 → 0 ≤ G.g2) ∧ (G.g1 = 0 → G.g2 = 0 → 0 ≤ G.g3) := by
  obtain ⟨⟨k, hk, hk1⟩, _, _, hskip, _⟩ := generateGPoints_shape h
  rw [if_pos rfl] at hk
  rw [wrapIdx_eq_of_le hk] at hk1
  push_neg at hskip
  obtain ⟨hs1, hs2⟩ := hskip
  refine ⟨by omega, fun h0 => ?_, fun h0 h0' => ?_⟩
  · have := hs1 rfl h0
    omega
  · have := hs2 h0 h0'
    omega

/-- Claim C3: in gamma-point-only mode the generator never emits both members
of a ± pair: if a nonzero G is emitted, its negation is not.  The selected
representative has non-negative primary-axis component, with negative
secondary components excluded on the primary-zero boundary and negative
tertiary components excluded when both primary and secondary vanish. -/
theorem generateGPoints_gamma_no_pm_pair (P : Geom) (kpoint : Vec3) (G : GVec)
    (hG0 : G ≠ GVec.zero) (hG : G ∈ generateGPoints P kpoint true) :
    GVec.neg G ∉ generateGPoints P kpoint true := by
  intro hneg
  obtain ⟨h1, h2, h3⟩ := generateGPoints_gamma_sel hG
  obtain ⟨n1, n2, n3⟩ := generateGPoints_gamma_sel hneg
  simp only [GVec.neg] at n1 n2 n3
  apply hG0
  have e1 : G.g1 = 0 := by omega
  have e2 : G.g2 = 0 := by
    have := h2 e1
    have := n2 (by omega)
    omega
  have e3 : G.g3 = 0 := by
    have := h3 e1 e2
    have := n3 (by omega) (by omega)
    omega
  cases G
  simp only [GVec.zero]
  simp_all

/-- Witness for C3 at a concrete geometry: G = (1,0,0) is emitted at the
gamma point of `P0` and its negation is not. -/
theorem generateGPoints_gamma_no_pm_pair_witness :
    (⟨1, 0, 0⟩ : GVec) ≠ GVec.zero ∧
    (⟨1, 0, 0⟩ : GVec) ∈ generateGPoints P0 Vec3.zero true ∧
    GVec.neg ⟨1, 0, 0⟩ ∉ generateGPoints P0 Vec3.zero true := by
  have hmem : (⟨1, 0, 0⟩ : GVec) ∈ generateGPoints P0 Vec3.zero true := by
    norm_num [generateGPoints, P0, kinE, wrapIdx, Vec3.zero, Vec3.add, Vec3.dot,
      Mat3.vecMul, GVec.toVec3, List.range_succ, List.filterMap_cons]
  exact ⟨by decide, hmem,
    generateGPoints_gamma_no_pm_pair P0 Vec3.zero ⟨1, 0, 0⟩ (by decide) hmem⟩

/-- Every emitted G-vector has components within the per-axis nbmax box. -/
lemma generateGPoints_bounds {P : Geom} {kpoint : Vec3} {gamma : Bool} {G : GVec}
    (h : G ∈ generateGPoints P kpoint gamma) :
    (-(P.nbmax1 : ℤ) ≤ G.g1 ∧ G.g1 ≤ (P.nbmax1 : ℤ)) ∧
    (-(P.nbmax2 : ℤ) ≤ G.g2 ∧ G.g2 ≤ (P.nbmax2 : ℤ)) ∧
    (-(P.nbmax3 : ℤ) ≤ G.g3 ∧ G.g3 ≤ (P.nbmax3 : ℤ)) := by
  obtain ⟨⟨k, hk, hk1⟩, ⟨j, hj, hj2⟩, ⟨i, hi, hi3⟩, _, _⟩ := generateGPoints_shape h
  have hk' : k < 2 * P.nbmax1 + 1 := by
    by_cases hg : gamma = true
    · rw [if_pos hg] at hk
      omega
    · rw [if_neg hg] at hk
      omega
  rw [hk1, hj2, hi3]
  exact ⟨wrapIdx_bounds hk', wrapIdx_bounds hj, wrapIdx_bounds hi⟩

/-- Grid dimensions `self.ng` (a triple of naturals). -/
structure Dims where
  n1 : ℕ
  n2 : ℕ
  n3 : ℕ
deriving DecidableEq

/-- `self.ng` as set at Wavecar.py:160-161: `self._nbmax * 3` for normal
precision, `self._nbmax * 4` for accurate precision. -/
def ngOf (f : ℕ) (P : Geom) : Dims := ⟨f * P.nbmax1, f * P.nbmax2, f * P.nbmax3⟩

/-- The direct placement index of Wavecar.py:370:
`tuple(gp.astype(int) + (self.ng / 2).astype(int))`; `ng / 2` is float
division truncated back to int, i.e. natural division by 2. -/
def meshCell (ng : Dims) (G : GVec) : ℤ × ℤ × ℤ :=
  (G.g1 + ((ng.n1 / 2 : ℕ) : ℤ), G.g2 + ((ng.n2 / 2 : ℕ) : ℤ), G.g3 + ((ng.n3 / 2 : ℕ) : ℤ))

/-- An index triple addresses a real cell of the `ng`-shaped numpy array
without negative-index wraparound. -/
def cellInBounds (ng : Dims) (t : ℤ × ℤ × ℤ) : Prop :=
  0 ≤ t.1 ∧ t.1 < (ng.n1 : ℤ) ∧ 0 ≤ t.2.1 ∧ t.2.1 < (ng.n2 : ℤ) ∧
  0 ≤ t.2.2 ∧ t.2.2 < (ng.n3 : ℤ)

/-- Claim C9: every emitted G-vector fits in the nbmax box, and with the
default grid dimensions (3× nbmax for normal precision, 4× for accurate) both
the direct cell `G + ng/2` and the mirrored cell `-G + ng/2` used by
`fft_mesh` are strictly inside the grid on every axis, and the cell map is
injective, so distinct G-vectors never collide.  `1 ≤ nbmax` on every axis
holds for every decoded file because `_generate_nbmax` adds 1 to each
non-negative candidate bound before flooring (Wavecar.py:250/258/266). -/
theorem generateGPoints_fft_cells_safe (P : Geom) (kpoint : Vec3) (gamma : Bool)
    (f : ℕ) (hf : f = 3 ∨ f = 4)
    (h1 : 1 ≤ P.nbmax1) (h2 : 1 ≤ P.nbmax2) (h3 : 1 ≤ P.nbmax3)
    (G : GVec) (hG : G ∈ generateGPoints P kpoint gamma) :
    (G.g1.natAbs ≤ P.nbmax1 ∧ G.g2.natAbs ≤ P.nbmax2 ∧ G.g3.natAbs ≤ P.nbmax3) ∧
    cellInBounds (ngOf f P) (meshCell (ngOf f P) G) ∧
    cellInBounds (ngOf f P) (meshCell (ngOf f P) (GVec.neg G)) ∧
    (∀ G' : GVec, meshCell (ngOf f P) G' = meshCell (ngOf f P) G → G' = G) := by
  obtain ⟨⟨ha1, hb1⟩, ⟨ha2, hb2⟩, ⟨ha3, hb3⟩⟩ := generateGPoints_bounds hG
  refine ⟨⟨by omega, by omega, by omega⟩, ?_, ?_, ?_⟩
  · simp only [cellInBounds, meshCell, ngOf]
    rcases hf with rfl | rfl <;> refine ⟨by omega, by omega, by omega, by omega, by omega, by omega⟩
  · simp only [cellInBounds, meshCell, ngOf, GVec.neg]
    rcases hf with rfl | rfl <;> refine ⟨by omega, by omega, by omega, by omega, by omega, by omega⟩
  · intro G' hcell
    cases G
    cases G'
    simp only [meshCell, Prod.mk.injEq] at hcell
    simp only [GVec.mk.injEq]
    omega

/-- Witness for C9 at the concrete geometry `P0` with normal precision,
applied to the emitted vector G = (1,0,0). -/
theorem generateGPoints_fft_cells_safe_witness :
    ((3 : ℕ) = 3 ∨ (3 : ℕ) = 4) ∧
    (1 ≤ P0.nbmax1 ∧ 1 ≤ P0.nbmax2 ∧ 1 ≤ P0.nbmax3) ∧
    (⟨1, 0, 0⟩ : GVec) ∈ generateGPoints P0 Vec3.zero false ∧
    (((⟨1, 0, 0⟩ : GVec).g1.natAbs ≤ P0.nbmax1 ∧
      (⟨1, 0, 0⟩ : GVec).g2.natAbs ≤ P0.nbmax2 ∧
      (⟨1, 0, 0⟩ : GVec).g3.natAbs ≤ P0.nbmax3) ∧
     cellInBounds (ngOf 3 P0) (meshCell (ngOf 3 P0) ⟨1, 0, 0⟩) ∧
     cellInBounds (ngOf 3 P0) (meshCell (ngOf 3 P0) (GVec.neg ⟨1, 0, 0⟩)) ∧
     (∀ G' : GVec, meshCell (ngOf 3 P0) G' = meshCell (ngOf 3 P0) ⟨1, 0, 0⟩ →
        G' = (⟨1, 0, 0⟩ : GVec))) := by
  have hmem : (⟨1, 0, 0⟩ : GVec) ∈ generateGPoints P0 Vec3.zero false := by
    norm_num [generateGPoints, P0, kinE, wrapIdx, Vec3.zero, Vec3.add, Vec3.dot,
      Mat3.vecMul, GVec.toVec3, List.range_succ, List.filterMap_cons]
  exact ⟨Or.inl rfl, ⟨by decide, by decide, by decide⟩, hmem,
    generateGPoints_fft_cells_safe P0 Vec3.zero false 3 (Or.inl rfl)
      (by decide) (by decide) (by decide) ⟨1, 0, 0⟩ hmem⟩

/-- A complex coefficient as stored in the file, modelled as an exact pair of
rationals (numpy complex64/complex128 components are IEEE floats, hence
rationals). -/
structure CQ where
  re : ℚ
  im : ℚ
deriving DecidableEq

def CQ.zero : CQ := ⟨0, 0⟩

instance : Inhabited CQ := ⟨CQ.zero⟩

/-- `np.conj`. -/
def CQ.conj (c : CQ) : CQ := ⟨c.re, -c.im⟩

/-- Multiplication by a natural scale factor (`wfr * N` in get_parchg). -/
def CQ.smulNat (c : CQ) (n : ℕ) : CQ := ⟨c.re * n, c.im * n⟩

/-- `np.abs(np.conj(w) * w)`: the product is `|w|² + 0i`, so its absolute
value is exactly the sum of the squared components. -/
def CQ.normSq (c : CQ) : ℚ := c.re * c.re + c.im * c.im

/-- The dense 3D coefficient grid, as a map from integer index triples. -/
def MeshQ : Type := ℤ × ℤ × ℤ → CQ

/-- The decoded `Wavecar` object state used by the post-decode operations:
`self.spin`, `self.ng`, `self.vol`, `self.b`, `self.kpoints`, `self.Gpoints`,
and the coefficient store, which python keeps in two layouts — triple-nested
`coeffs[spin][kpoint][band]` when `self.spin == 2`, and double-nested
`coeffs[kpoint][band]` otherwise (Wavecar.py:170-177). -/
structure WState where
  spin : ℕ
  ng : Dims
  vol : ℚ
  b : Mat3
  kpoints : List Vec3
  Gpoints : List (List GVec)
  coeffsS : ℕ × ℕ × ℕ → List CQ
  coeffsN : ℕ × ℕ → List CQ

/-- The coefficient lookup appearing verbatim in evaluate_wavefunc
(Wavecar.py:338-339) and fft_mesh (Wavecar.py:367-368):
`self.coeffs[spin][kpoint][band] if self.spin == 2 else
self.coeffs[kpoint][band]`. -/
def tcoeffs (s : WState) (spin kpoint band : ℕ) : List CQ :=
  if s.spin = 2 then s.coeffsS (spin, kpoint, band) else s.coeffsN (kpoint, band)

/-- Models numpy's `ifftshift` on one axis: a cyclic roll by the ceiling half
dimension, taking the centered zero-frequency cell back to index 0.  External
numpy routine, modelled from its documentation. -/
def ifftshiftAx (n : ℕ) (i : ℤ) : ℤ := (i + (((n + 1) / 2 : ℕ) : ℤ)) % (n : ℤ)

def ifftshiftMesh (ng : Dims) (m : MeshQ) : MeshQ :=
  fun t => m (ifftshiftAx ng.n1 t.1, ifftshiftAx ng.n2 t.2.1, ifftshiftAx ng.n3 t.2.2)

/-- `Wavecar.fft_mesh` (Wavecar.py:342-378), translated verbatim: start from
a zero grid, and for each (G, coefficient) pair in on-disk order write the
coefficient at `G + ng/2` and then — unconditionally, for every `G ≠ (0,0,0)`,
whether or not the file was decoded in gamma mode — write the complex
conjugate at `-G + ng/2` (lines 372-374 have no gamma guard; the decoder does
not even store the gamma flag).  Finally apply `np.fft.ifftshift` when
`shift` is set. -/
def fftMesh (s : WState) (kpoint band spin : ℕ) (shift : Bool) : MeshQ :=
  let mesh0 : MeshQ := fun _ => CQ.zero
  let tcs := tcoeffs s spin kpoint band
  let mesh := (List.zip (s.Gpoints.getD kpoint []) tcs).foldl
    (fun m gc =>
      let m1 := Function.update m (meshCell s.ng gc.1) gc.2
      if gc.1 ≠ GVec.zero then
        Function.update m1 (meshCell s.ng (GVec.neg gc.1)) (CQ.conj gc.2)
      else m1)
    mesh0
  if shift then ifftshiftMesh s.ng mesh else mesh

/-- A decoded single-spin state whose k-point 0 carries the G-vectors
(0,0,0), (1,0,0), (-1,0,0) — a non-gamma G-set containing a full ± pair —
with band-0 coefficients 1, i, 2i. -/
def sC4 : WState :=
  { spin := 1, ng := ⟨3, 3, 3⟩, vol := 1, b := P0.b,
    kpoints := [Vec3.zero],
    Gpoints := [[⟨0, 0, 0⟩, ⟨1, 0, 0⟩, ⟨-1, 0, 0⟩]],
    coeffsS := fun _ => [],
    coeffsN := fun p => if p = (0, 0) then [⟨1, 0⟩, ⟨0, 1⟩, ⟨0, 2⟩] else [] }

/-- Claim C4 (code_bug evidence): on the non-gamma state `sC4`, fft_mesh with
shift disabled leaves the cell of G = (1,0,0) holding `conj(2i) = -2i` — the
conjugate of the later pair's coefficient, written by the unconditional
Hermitian mirror — instead of that pair's own coefficient `i`; so a conjugate
is placed outside gamma mode and a pair's own cell loses its coefficient. -/
theorem fftMesh_unconditional_mirror_overwrites :
    fftMesh sC4 0 0 0 false (meshCell sC4.ng ⟨1, 0, 0⟩) = CQ.conj ⟨0, 2⟩ ∧
    CQ.conj ⟨0, 2⟩ ≠ (⟨0, 1⟩ : CQ) ∧
    fftMesh sC4 0 0 0 false (meshCell sC4.ng ⟨-1, 0, 0⟩) = (⟨0, 2⟩ : CQ) := by
  decide

/-- The stored rational coefficient as a complex number. -/
noncomputable def CQ.toC (c : CQ) : ℂ := ⟨(c.re : ℝ), (c.im : ℝ)⟩

/-- `Wavecar.evaluate_wavefunc` (Wavecar.py:308-340), translated verbatim:
`v = self.Gpoints[kpoint] + self.kpoints[kpoint]`,
`u = np.dot(np.dot(v, self.b), r)`,
`c = self.coeffs[spin][kpoint][band] if self.spin == 2 else
self.coeffs[kpoint][band]`, result `np.dot(c, np.exp(1j * u)) / sqrt(vol)`,
i.e. the inner product of the coefficients with the phase factors.  A pure
function of the decoder state: the embedding has no state to mutate, exactly
as the source touches no attribute. -/
noncomputable def evaluateWavefunc (s : WState) (kpoint band : ℕ) (r : Vec3) (spin : ℕ) : ℂ :=
  let kq := s.kpoints.getD kpoint Vec3.zero
  let gs := s.Gpoints.getD kpoint []
  let cs := tcoeffs s spin kpoint band
  (List.zipWith
      (fun c g =>
        CQ.toC c *
          Complex.exp (Complex.I *
            ((Vec3.dot (Mat3.vecMul (Vec3.add (GVec.toVec3 g) kq) s.b) r : ℚ) : ℝ)))
      cs gs).sum / ((Real.sqrt ((s.vol : ℝ)) : ℝ) : ℂ)

lemma zipWith_sum_eq_sum_range {α β M : Type _} [AddCommMonoid M]
    (f : α → β → M) (d1 : α) (d2 : β) :
    ∀ (l1 : List α) (l2 : List β),
      (List.zipWith f l1 l2).sum =
        ∑ i in Finset.range (min l1.length l2.length), f (l1.getD i d1) (l2.getD i d2)
  | [], l2 => by simp
  | a :: l1, [] => by simp
  | a :: l1, b :: l2 => by
    rw [List.zipWith_cons_cons, List.sum_cons,
      zipWith_sum_eq_sum_range f d1 d2 l1 l2,
      List.length_cons, List.length_cons, Nat.succ_min_succ, Finset.sum_range_succ']
    simp only [List.getD_cons_succ, List.getD_cons_zero]
    exact add_comm _ _

/-- A decoded single-spin state with volume 4 whose k-point 0 has the single
G-vector (0,0,0) and the single unit coefficient 1. -/
def sC5 : WState :=
  { spin := 1, ng := ⟨3, 3, 3⟩, vol := 4, b := P0.b,
    kpoints := [Vec3.zero], Gpoints := [[GVec.zero]],
    coeffsS := fun _ => [], coeffsN := fun p => if p = (0, 0) then [⟨1, 0⟩] else [] }

/-- Claim C5: evaluate_wavefunc returns `(1/√Volume) · Σᵢ cᵢ · exp(i(k+Gᵢ)·r)`
over the k-point's coefficient/G-vector pairs (a pure function of the decoder
state), and on the concrete single-G unit-coefficient state `sC5` with
Volume 4, evaluation at r = (0,0,0) returns `1/√Volume = 1/2`. -/
theorem evaluateWavefunc_formula :
    (∀ (s : WState) (kpoint band : ℕ) (r : Vec3) (spin : ℕ),
      evaluateWavefunc s kpoint band r spin =
        (1 / ((Real.sqrt (s.vol : ℝ) : ℝ) : ℂ)) *
          ∑ i in Finset.range
              (min (tcoeffs s spin kpoint band).length (s.Gpoints.getD kpoint []).length),
            CQ.toC ((tcoeffs s spin kpoint band).getD i CQ.zero) *
              Complex.exp (Complex.I *
                ((Vec3.dot (Mat3.vecMul (Vec3.add
                    (GVec.toVec3 ((s.Gpoints.getD kpoint []).getD i GVec.zero))
                    (s.kpoints.getD kpoint Vec3.zero)) s.b) r : ℚ) : ℝ))) ∧
    evaluateWavefunc sC5 0 0 Vec3.zero 0 = (1 / 2 : ℂ) := by
  constructor
  · intro s kpoint band r spin
    rw [evaluateWavefunc]
    rw [zipWith_sum_eq_sum_range _ CQ.zero GVec.zero]
    ring
  · rw [evaluateWavefunc]
    simp only [sC5, tcoeffs]
    norm_num [CQ.toC, Vec3.zero, Vec3.add, Vec3.dot, Mat3.vecMul, GVec.toVec3,
      GVec.zero, P0]
    rw [show (4 : ℝ) = 2 ^ 2 by norm_num, Real.sqrt_sq (by norm_num : (0:ℝ) ≤ 2)]
    rw [Complex.ext_iff]
    norm_num

/-- Claim C10: on a decoded file with a single spin channel (`self.spin = 1`)
the spin argument of evaluate_wavefunc and fft_mesh is dead: both access
`self.coeffs[kpoint][band]` because the `self.spin == 2` guard fails, so any
two spin values give equal results, each equal to the spin-0 result. -/
theorem spin_arg_ignored_when_single_spin (s : WState) (h : s.spin = 1)
    (kpoint band sp1 sp2 : ℕ) (r : Vec3) (shift : Bool) :
    evaluateWavefunc s kpoint band r sp1 = evaluateWavefunc s kpoint band r sp2 ∧
    evaluateWavefunc s kpoint band r sp1 = evaluateWavefunc s kpoint band r 0 ∧
    fftMesh s kpoint band sp1 shift = fftMesh s kpoint band sp2 shift ∧
    fftMesh s kpoint band sp1 shift = fftMesh s kpoint band 0 shift := by
  have hc : ∀ sp, tcoeffs s sp kpoint band = s.coeffsN (kpoint, band) := by
    intro sp
    simp [tcoeffs, h]
  refine ⟨?_, ?_, ?_, ?_⟩ <;> simp only [evaluateWavefunc, fftMesh, hc]

/-- Witness for C10 on the concrete single-spin state `sC5`, with the two
arbitrary spin indices 5 and 7. -/
theorem spin_arg_ignored_when_single_spin_witness :
    sC5.spin = 1 ∧
    (evaluateWavefunc sC5 0 0 Vec3.zero 5 = evaluateWavefunc sC5 0 0 Vec3.zero 7 ∧
     evaluateWavefunc sC5 0 0 Vec3.zero 5 = evaluateWavefunc sC5 0 0 Vec3.zero 0 ∧
     fftMesh sC5 0 0 5 true = fftMesh sC5 0 0 7 true ∧
     fftMesh sC5 0 0 5 true = fftMesh sC5 0 0 0 true) :=
  ⟨rfl, spin_arg_ignored_when_single_spin sC5 rfl 0 0 5 7 Vec3.zero true⟩

/-- Models `np.fromfile(f, dtype=..., count=n)` at element granularity over
the remaining stream — the only reader WavecarDecoder uses (Wavecar.py:111,
127, 130, 164, 183, 196, 207, 218, 223): numpy returns the first
min(count, remaining) elements and silently fewer than requested when the
stream ends early; it raises nothing.  External numpy routine, modelled from
its documented semantics. -/
def npFromfile (s : List ℚ) (count : ℕ) : List ℚ × List ℚ :=
  (s.take count, s.drop count)

/-- Python `int()` truncation toward zero on a float value. -/
def pyInt (q : ℚ) : ℤ := if 0 ≤ q then ⌊q⌋ else ⌈q⌉

/-- `recl8 = int(recl / 8)` at Wavecar.py:115: the record-length value read
from the first record is converted with no positivity or divisibility
validation whatsoever. -/
def recl8Of (recl : ℚ) : ℤ := pyInt (recl / 8)

/-- Claim C7 counterexample: a requested read of 3 elements from a 1-element
stream runs past the file's end yet returns the short data (1 element, not 3)
with no error, and the non-positive record length -16 is accepted and
converted to recl8 = -2 rather than rejected: the claimed FormatError checks
do not exist in the code. -/
theorem npFromfile_silently_truncates :
    (npFromfile [1] 3).1.length = 1 ∧ ¬ (npFromfile [1] 3).1.length = 3 ∧
    recl8Of (-16) = -2 := by
  refine ⟨by simp [npFromfile], by simp [npFromfile], ?_⟩
  norm_num [recl8Of, pyInt]
  rw [show (-2 : ℚ) = ((-2 : ℤ) : ℚ) by norm_num]
  exact Int.ceil_intCast (-2)

/-- Claim C7 amended: every read the decoder performs returns exactly the
first min(count, available) elements and leaves the remainder of the stream;
a read past the end of the file silently yields short or empty data, and no
read ever fails. -/
theorem npFromfile_reads_prefix (s : List ℚ) (n : ℕ) :
    (npFromfile s n).1.length = min n s.length ∧
    (npFromfile s n).2.length = s.length - n ∧
    (npFromfile s n).1 ++ (npFromfile s n).2 = s := by
  simp [npFromfile]

/-- `np.sign` on a real value. -/
def signQ (q : ℚ) : ℚ := if 0 < q then 1 else if q < 0 then -1 else 0

/-- The grids stored into the `data` dict of get_parchg: `data['total']`
always; `data['diff']` only in the spin-polarized branch with no channel
selected. -/
structure DenData where
  total : ℤ × ℤ × ℤ → ℚ
  diff : Option (ℤ × ℤ × ℤ → ℚ)

/-- Density extraction `np.abs(np.conj(wfr) * wfr)` (Wavecar.py:430/436/443),
optionally multiplied by `np.sign(np.real(wfr))` when `phase` is set: the
product `conj(w)*w` is `|w|² + 0i`, so its absolute value is exactly
`CQ.normSq`. -/
def denOf (phase : Bool) (w : MeshQ) : ℤ × ℤ × ℤ → ℚ :=
  fun t => if phase then signQ (w t).re * CQ.normSq (w t) else CQ.normSq (w t)

def chgcarMsg : String := "NameError: name Chgcar is not defined"

/-- `Wavecar.get_parchg` (Wavecar.py:380-449), translated verbatim modulo the
external numpy inverse FFT, which is abstracted as the function argument
`ifftn` (any deterministic routine): save `self.ng`, scale it by `scale`,
build the density `data` dict through the spin branches with `wfr =
np.fft.ifftn(fft_mesh(...)) * N`, restore `self.ng`, and finally evaluate
`return Chgcar(poscar, data)` — which in this module unconditionally raises
NameError, because `Chgcar` is neither defined nor imported in Wavecar.py
(its imports are json, warnings, numpy only), after all mutations of `self`
have already happened.  The persistent object state is returned together
with the outcome of the call; the computed `data` is discarded by the raise,
exactly as in the source. -/
def getParchg (ifftn : Dims → MeshQ → MeshQ) (s : WState)
    (kpoint band : ℕ) (spin : Option ℕ) (phase : Bool) (scale : ℕ) :
    WState × Except String DenData :=
  let tempNg := s.ng
  let s1 : WState := { s with ng := ⟨s.ng.n1 * scale, s.ng.n2 * scale, s.ng.n3 * scale⟩ }
  let bigN : ℕ := s1.ng.n1 * s1.ng.n2 * s1.ng.n3
  let wfr := fun (sp : ℕ) (t : ℤ × ℤ × ℤ) =>
    CQ.smulNat (ifftn s1.ng (fftMesh s1 kpoint band sp true) t) bigN
  let data : DenData :=
    if s1.spin = 2 then
      match spin with
      | some sp => { total := denOf phase (wfr sp), diff := none }
      | none =>
          { total := fun t => CQ.normSq (wfr 0 t) + CQ.normSq (wfr 1 t),
            diff := some (fun t => CQ.normSq (wfr 0 t) - CQ.normSq (wfr 1 t)) }
    else
      { total := denOf phase (wfr 0), diff := none }
  let s2 : WState := { s1 with ng := tempNg }
  (s2, Except.error chgcarMsg)

/-- Claim C8 (code_bug evidence): get_parchg restores `self.ng` before its
final statement, so the oversample scale never leaks into later calls and a
second call from the post-call state behaves identically — but the function
never yields an output grid: every call ends in the NameError from the
unresolved `Chgcar`, contradicting the docstring's promise of a Chgcar
return. -/
theorem getParchg_restores_ng_but_never_returns (ifftn : Dims → MeshQ → MeshQ)
    (s : WState) (kpoint band : ℕ) (spin : Option ℕ) (phase : Bool) (scale : ℕ) :
    (getParchg ifftn s kpoint band spin phase scale).1 = s ∧
    (getParchg ifftn s kpoint band spin phase scale).1.ng = s.ng ∧
    (getParchg ifftn s kpoint band spin phase scale).2 = Except.error chgcarMsg ∧
    getParchg ifftn (getParchg ifftn s kpoint band spin phase scale).1
        kpoint band spin phase scale
      = getParchg ifftn s kpoint band spin phase scale :=
  ⟨rfl, rfl, rfl, rfl⟩

/-- `np.isclose` with numpy's default tolerances rtol = 1e-5, atol = 1e-8:
`|a - b| <= atol + rtol * |b|`. -/
def isclose (a b : ℚ) : Prop := |a - b| ≤ 1 / 100000000 + 1 / 100000 * |b|

instance (a b : ℚ) : Decidable (isclose a b) := by
  unfold isclose
  infer_instance

/-- `np.allclose` on 3-vectors: componentwise isclose. -/
def allclose (u v : Vec3) : Prop :=
  isclose u.x v.x ∧ isclose u.y v.y ∧ isclose u.z v.z

instance (u v : Vec3) : Decidable (allclose u v) := by
  unfold allclose
  infer_instance

/-- One per-(spin, k-point) block of the file, pre-parsed from its record:
the declared plane-wave count (`int(...)` of the first value, so an
arbitrary integer), the k-point coordinates, the per-band
(energy, unused, occupation) triples, and the per-band coefficient rows. -/
structure KRecord where
  nplane : ℤ
  kpoint : Vec3
  enocc : List (ℚ × ℚ × ℚ)
  cdata : List (List CQ)

instance : Inhabited KRecord := ⟨⟨0, Vec3.zero, [], []⟩⟩

/-- The collections populated by the reading loop of Wavecar.__init__
(Wavecar.py:168-229): `self.kpoints` (appended only on spin 0),
`self.Gpoints` (indexed assignment per k-point, overwritten on every spin
pass), and `self.band_energy` / `self.coeffs`, each kept in the two layouts
the python chooses between depending on the spin count. -/
structure DecSt where
  kpoints : List Vec3
  Gpoints : ℕ → List GVec
  bandES : ℕ → List (List (ℚ × ℚ × ℚ))
  bandEN : List (List (ℚ × ℚ × ℚ))
  coeffsS : ℕ × ℕ × ℕ → List CQ
  coeffsN : ℕ × ℕ → List CQ

def initDecSt : DecSt :=
  { kpoints := [], Gpoints := fun _ => [], bandES := fun _ => [], bandEN := [],
    coeffsS := fun _ => [], coeffsN := fun _ => [] }

def assertMsg : String := "AssertionError at Wavecar.py:189"

def countMsg : String := "ValueError: failed to generate the correct number of G points"

/-- The per-band coefficient storage loop (Wavecar.py:216-229). -/
def storeCoeffs (spinCnt : ℕ) (r : KRecord) (p : ℕ × ℕ) (nb : ℕ) (st : DecSt) : DecSt :=
  (List.range nb).foldl (fun st inb =>
    if spinCnt = 2 then
      { st with coeffsS := Function.update st.coeffsS (p.1, p.2, inb) (r.cdata.getD inb []) }
    else
      { st with coeffsN := Function.update st.coeffsN (p.2, inb) (r.cdata.getD inb []) }) st

/-- One iteration of the k-point loop of Wavecar.__init__ (lines 181-229) at
loop indices `p = (ispin, ink)`: read the record; on spin 0 append the
k-point to `self.kpoints`, otherwise `assert np.allclose(self.kpoints[ink],
kpoint)`; append the band energies in the layout chosen by the spin count;
regenerate `self.Gpoints[ink]` from the just-read k-point; raise ValueError
when the generated count differs from the declared plane-wave count;
otherwise store the per-band coefficient rows. -/
def stepK (P : Geom) (gamma : Bool) (spinCnt nb : ℕ) (recs : ℕ → ℕ → KRecord)
    (p : ℕ × ℕ) (st : DecSt) : Except String DecSt :=
  let r := recs p.1 p.2
  if p.1 ≠ 0 ∧ ¬ allclose (st.kpoints.getD p.2 Vec3.zero) r.kpoint then
    Except.error assertMsg
  else
    let st1 := if p.1 = 0 then { st with kpoints := st.kpoints ++ [r.kpoint] } else st
    let st2 :=
      if spinCnt = 2 then
        { st1 with bandES := Function.update st1.bandES p.1 (st1.bandES p.1 ++ [r.enocc]) }
      else
        { st1 with bandEN := st1.bandEN ++ [r.enocc] }
    let g := generateGPoints P r.kpoint gamma
    let st3 := { st2 with Gpoints := Function.update st2.Gpoints p.2 g }
    if (g.length : ℤ) ≠ r.nplane then
      Except.error countMsg
    else
      Except.ok (storeCoeffs spinCnt r p nb st3)

/-- The file-order iteration domain: for each spin channel, each k-point. -/
def pairList (spinCnt nk : ℕ) : List (ℕ × ℕ) :=
  (List.range spinCnt).flatMap (fun i => (List.range nk).map (fun k => (i, k)))

def decodeAux (P : Geom) (gamma : Bool) (spinCnt nb : ℕ) (recs : ℕ → ℕ → KRecord) :
    List (ℕ × ℕ) → DecSt → Except String DecSt
  | [], st => Except.ok st
  | p :: rest, st =>
    match stepK P gamma spinCnt nb recs p st with
    | Except.error e => Except.error e
    | Except.ok st' => decodeAux P gamma spinCnt nb recs rest st'

/-- The record-reading loop of Wavecar.__init__ (lines 178-229): process all
(spin, k-point) blocks in file order starting from the empty collections. -/
def decode (P : Geom) (gamma : Bool) (spinCnt nk nb : ℕ)
    (recs : ℕ → ℕ → KRecord) : Except String DecSt :=
  decodeAux P gamma spinCnt nb recs (pairList spinCnt nk) initDecSt

/-- The count check of Wavecar.py:211 holds at (ispin, ink): the generated
G-vector count equals the declared plane-wave count of that block. -/
def countOk (P : Geom) (gamma : Bool) (recs : ℕ → ℕ → KRecord) (i k : ℕ) : Prop :=
  ((generateGPoints P (recs i k).kpoint gamma).length : ℤ) = (recs i k).nplane

/-- The spin-consistency assertion of Wavecar.py:189 holds at (ispin, ink):
the re-read k-point is np.allclose to the spin-0 value of the same index. -/
def consOk (recs : ℕ → ℕ → KRecord) (i k : ℕ) : Prop :=
  allclose (recs 0 k).kpoint (recs i k).kpoint

lemma storeCoeffs_kpoints (spinCnt : ℕ) (r : KRecord) (p : ℕ × ℕ) (nb : ℕ) (st : DecSt) :
    (storeCoeffs spinCnt r p nb st).kpoints = st.kpoints := by
  unfold storeCoeffs
  generalize List.range nb = l
  induction l generalizing st with
  | nil => rfl
  | cons a l ih =>
    rw [List.foldl_cons, ih]
    split <;> rfl

/-- What a successful step implies: the assert passed (or spin 0), the count
check passed, and the k-point list grew by the record's k-point exactly on
spin 0. -/
lemma stepK_ok_cases {P : Geom} {gamma : Bool} {spinCnt nb : ℕ}
    {recs : ℕ → ℕ → KRecord} {p : ℕ × ℕ} {st st' : DecSt}
    (h : stepK P gamma spinCnt nb recs p st = Except.ok st') :
    (p.1 = 0 ∨ allclose (st.kpoints.getD p.2 Vec3.zero) (recs p.1 p.2).kpoint) ∧
    countOk P gamma recs p.1 p.2 ∧
    st'.kpoints =
      (if p.1 = 0 then st.kpoints ++ [(recs p.1 p.2).kpoint] else st.kpoints) := by
  simp only [stepK] at h
  by_cases h1 : p.1 ≠ 0 ∧ ¬ allclose (st.kpoints.getD p.2 Vec3.zero) (recs p.1 p.2).kpoint
  · rw [if_pos h1] at h
    exact absurd h (by simp)
  · rw [if_neg h1] at h
    by_cases h2 : ((generateGPoints P (recs p.1 p.2).kpoint gamma).length : ℤ)
        ≠ (recs p.1 p.2).nplane
    · rw [if_pos h2] at h
      exact absurd h (by simp)
    · rw [if_neg h2] at h
      have hst := Except.ok.inj h
      refine ⟨by tauto, by simpa [countOk] using h2, ?_⟩
      rw [← hst, storeCoeffs_kpoints]
      by_cases h0 : p.1 = 0
      · rw [if_pos h0]
        split <;> simp [h0]
      · rw [if_neg h0]
        split <;> simp [h0]

/-- A step succeeds as soon as the assert test and the count check pass,
and then the k-point list grows by the record's k-point exactly on spin 0. -/
lemma stepK_ok_of_checks {P : Geom} {gamma : Bool} {spinCnt nb : ℕ}
    {recs : ℕ → ℕ → KRecord} {p : ℕ × ℕ} {st : DecSt}
    (h1 : ¬(p.1 ≠ 0 ∧ ¬ allclose (st.kpoints.getD p.2 Vec3.zero) (recs p.1 p.2).kpoint))
    (h2 : countOk P gamma recs p.1 p.2) :
    ∃ st', stepK P gamma spinCnt nb recs p st = Except.ok st' ∧
      st'.kpoints =
        (if p.1 = 0 then st.kpoints ++ [(recs p.1 p.2).kpoint] else st.kpoints) := by
  simp only [stepK]
  rw [if_neg h1, if_neg (by simpa [countOk] using h2)]
  refine ⟨_, rfl, ?_⟩
  rw [storeCoeffs_kpoints]
  by_cases h0 : p.1 = 0
  · rw [if_pos h0]
    split <;> simp [h0]
  · rw [if_neg h0]
    split <;> simp [h0]

/-- A spin-0 step always succeeds when the count check passes, appending the
record's k-point. -/
lemma stepK_spin0_ok {P : Geom} {gamma : Bool} {spinCnt nb : ℕ}
    {recs : ℕ → ℕ → KRecord} {k : ℕ} {st : DecSt}
    (h : countOk P gamma recs 0 k) :
    ∃ st', stepK P gamma spinCnt nb recs (0, k) st = Except.ok st' ∧
      st'.kpoints = st.kpoints ++ [(recs 0 k).kpoint] := by
  obtain ⟨st', hst, hkp⟩ := @stepK_ok_of_checks P gamma spinCnt nb recs (0, k) st (by simp) h
  exact ⟨st', hst, by simpa using hkp⟩

/-- A spin-i step (i ≠ 0) succeeds when the assert and the count check pass,
leaving the k-point list unchanged. -/
lemma stepK_spinI_ok {P : Geom} {gamma : Bool} {spinCnt nb : ℕ}
    {recs : ℕ → ℕ → KRecord} {i k : ℕ} {st : DecSt} (hi : i ≠ 0)
    (hcount : countOk P gamma recs i k)
    (hclose : allclose (st.kpoints.getD k Vec3.zero) (recs i k).kpoint) :
    ∃ st', stepK P gamma spinCnt nb recs (i, k) st = Except.ok st' ∧
      st'.kpoints = st.kpoints := by
  obtain ⟨st', hst, hkp⟩ := @stepK_ok_of_checks P gamma spinCnt nb recs (i, k) st
    (fun hc => hc.2 hclose) hcount
  exact ⟨st', hst, by simpa [hi] using hkp⟩

/-- A successful run of the loop implies the count check held at every
processed (spin, k-point) pair (the check does not depend on the loop
state). -/
lemma decodeAux_ok_countOk {P : Geom} {gamma : Bool} {spinCnt nb : ℕ}
    {recs : ℕ → ℕ → KRecord} :
    ∀ {l : List (ℕ × ℕ)} {st st' : DecSt},
      decodeAux P gamma spinCnt nb recs l st = Except.ok st' →
      ∀ p ∈ l, countOk P gamma recs p.1 p.2 := by
  intro l
  induction l with
  | nil =>
    intro st st' h p hp
    simp at hp
  | cons q rest ih =>
    intro st st' h p hp
    cases hs : stepK P gamma spinCnt nb recs q st with
    | error e =>
      simp only [decodeAux, hs] at h
      exact absurd h (by simp)
    | ok st1 =>
      simp only [decodeAux, hs] at h
      rcases List.mem_cons.mp hp with rfl | hp'
      · exact (stepK_ok_cases hs).2.1
      · exact ih h p hp'

/-- Splitting a successful run over a list concatenation. -/
lemma decodeAux_append_inv {P : Geom} {gamma : Bool} {spinCnt nb : ℕ}
    {recs : ℕ → ℕ → KRecord} :
    ∀ {l1 l2 : List (ℕ × ℕ)} {st st' : DecSt},
      decodeAux P gamma spinCnt nb recs (l1 ++ l2) st = Except.ok st' →
      ∃ st1, decodeAux P gamma spinCnt nb recs l1 st = Except.ok st1 ∧
        decodeAux P gamma spinCnt nb recs l2 st1 = Except.ok st' := by
  intro l1
  induction l1 with
  | nil =>
    intro l2 st st' h
    exact ⟨st, rfl, h⟩
  | cons q rest ih =>
    intro l2 st st' h
    rw [List.cons_append] at h
    cases hs : stepK P gamma spinCnt nb recs q st with
    | error e =>
      simp only [decodeAux, hs] at h
      exact absurd h (by simp)
    | ok st1 =>
      simp only [decodeAux, hs] at h
      obtain ⟨st2, h1, h2⟩ := ih h
      refine ⟨st2, ?_, h2⟩
      simp only [decodeAux, hs]
      exact h1

/-- Chaining a successful prefix run with the rest. -/
lemma decodeAux_append_ok {P : Geom} {gamma : Bool} {spinCnt nb : ℕ}
    {recs : ℕ → ℕ → KRecord} :
    ∀ {l1 l2 : List (ℕ × ℕ)} {st st1 : DecSt},
      decodeAux P gamma spinCnt nb recs l1 st = Except.ok st1 →
      decodeAux P gamma spinCnt nb recs (l1 ++ l2) st =
        decodeAux P gamma spinCnt nb recs l2 st1 := by
  intro l1
  induction l1 with
  | nil =>
    intro l2 st st1 h
    have := Except.ok.inj h
    subst this
    rfl
  | cons q rest ih =>
    intro l2 st st1 h
    rw [List.cons_append]
    cases hs : stepK P gamma spinCnt nb recs q st with
    | error e =>
      simp only [decodeAux, hs] at h
      exact absurd h (by simp)
    | ok sta =>
      simp only [decodeAux, hs] at h ⊢
      exact ih h

lemma getD_map_range {f : ℕ → Vec3} {nk k : ℕ} (h : k < nk) :
    ((List.range nk).map f).getD k Vec3.zero = f k := by
  rw [List.getD_eq_getElem?_getD, List.getElem?_map, List.getElem?_range h]
  rfl

/-- Forward run of a spin-0 segment: with all count checks passing, the run
succeeds and appends exactly the read k-points in order. -/
lemma decodeAux_spin0_seg {P : Geom} {gamma : Bool} {spinCnt nb : ℕ}
    {recs : ℕ → ℕ → KRecord} :
    ∀ (n a : ℕ) (st : DecSt),
      (∀ k, a ≤ k → k < a + n → countOk P gamma recs 0 k) →
      ∃ st', decodeAux P gamma spinCnt nb recs
          ((List.range' a n).map (fun k => (0, k))) st = Except.ok st' ∧
        st'.kpoints = st.kpoints ++ (List.range' a n).map (fun k => (recs 0 k).kpoint)
  | 0, a, st, _ => ⟨st, rfl, by simp⟩
  | n + 1, a, st, h => by
    obtain ⟨st1, hs1, hk1⟩ := @stepK_spin0_ok P gamma spinCnt nb recs a st
      (h a le_rfl (by omega))
    obtain ⟨st', hs', hk'⟩ := decodeAux_spin0_seg n (a + 1) st1
      (fun k hk1' hk2' => h k (by omega) (by omega))
    refine ⟨st', ?_, ?_⟩
    · rw [List.range'_succ, List.map_cons]
      simp only [decodeAux, hs1]
      exact hs'
    · rw [hk', hk1, List.range'_succ, List.map_cons]
      simp [List.append_assoc]

/-- Forward run of a spin-i segment, i ≠ 0: once `self.kpoints` holds the
spin-0 coordinates, the segment succeeds whenever the count checks pass and
every re-read k-point is allclose to its spin-0 value; the k-point list is
untouched. -/
lemma decodeAux_spinI_seg {P : Geom} {gamma : Bool} {spinCnt nb nk : ℕ}
    {recs : ℕ → ℕ → KRecord} {i : ℕ} (hi : i ≠ 0) :
    ∀ (n a : ℕ), a + n ≤ nk → ∀ (st : DecSt),
      st.kpoints = (List.range nk).map (fun k => (recs 0 k).kpoint) →
      (∀ k, a ≤ k → k < a + n → countOk P gamma recs i k) →
      (∀ k, a ≤ k → k < a + n → consOk recs i k) →
      ∃ st', decodeAux P gamma spinCnt nb recs
          ((List.range' a n).map (fun k => (i, k))) st = Except.ok st' ∧
        st'.kpoints = st.kpoints
  | 0, a, _, st, _, _, _ => ⟨st, rfl, rfl⟩
  | n + 1, a, hle, st, hkp, hcount, hcons => by
    have hgetD : st.kpoints.getD a Vec3.zero = (recs 0 a).kpoint := by
      rw [hkp]
      exact getD_map_range (show a < nk by omega)
    have hclose : allclose (st.kpoints.getD a Vec3.zero) (recs i a).kpoint := by
      rw [hgetD]
      exact hcons a le_rfl (by omega)
    obtain ⟨st1, hs1, hk1⟩ := @stepK_spinI_ok P gamma spinCnt nb recs i a st hi
      (hcount a le_rfl (by omega)) hclose
    obtain ⟨st', hs', hk'⟩ := @decodeAux_spinI_seg P gamma spinCnt nb nk recs i hi
      n (a + 1) (by omega) st1
      (by rw [hk1]; exact hkp)
      (fun k h1 h2 => hcount k (by omega) (by omega))
      (fun k h1 h2 => hcons k (by omega) (by omega))
    refine ⟨st', ?_, by rw [hk', hk1]⟩
    rw [List.range'_succ, List.map_cons]
    simp only [decodeAux, hs1]
    exact hs'

/-- Backward analysis of a successful spin-i segment, i ≠ 0: every re-read
k-point must have been allclose to its spin-0 value, and the k-point list is
unchanged. -/
lemma decodeAux_spinI_seg_inv {P : Geom} {gamma : Bool} {spinCnt nb nk : ℕ}
    {recs : ℕ → ℕ → KRecord} {i : ℕ} (hi : i ≠ 0) :
    ∀ (n a : ℕ), a + n ≤ nk → ∀ (st st' : DecSt),
      st.kpoints = (List.range nk).map (fun k => (recs 0 k).kpoint) →
      decodeAux P gamma spinCnt nb recs
          ((List.range' a n).map (fun k => (i, k))) st = Except.ok st' →
      (∀ k, a ≤ k → k < a + n → consOk recs i k) ∧ st'.kpoints = st.kpoints
  | 0, a, _, st, st', _, h => by
    simp only [List.range', List.map_nil, decodeAux] at h
    obtain rfl := Except.ok.inj h
    exact ⟨fun k h1 h2 => absurd h2 (by omega), rfl⟩
  | n + 1, a, hle, st, st', hkp, h => by
    rw [List.range'_succ, List.map_cons] at h
    cases hs : stepK P gamma spinCnt nb recs (i, a) st with
    | error e =>
      simp only [decodeAux, hs] at h
      exact absurd h (by simp)
    | ok st1 =>
      simp only [decodeAux, hs] at h
      obtain ⟨hor, hcnt, hkp1⟩ := stepK_ok_cases hs
      have hia : consOk recs i a := by
        rcases hor with h0 | hcl
        · exact absurd h0 hi
        · have hg : st.kpoints.getD a Vec3.zero = (recs 0 a).kpoint := by
            rw [hkp]
            exact getD_map_range (show a < nk by omega)
          unfold consOk
          rw [← hg]
          exact hcl
      have hkpeq : st1.kpoints = st.kpoints := by
        rw [hkp1]
        exact if_neg hi
      obtain ⟨hconsRest, hkpRest⟩ := @decodeAux_spinI_seg_inv P gamma spinCnt nb nk recs i
        hi n (a + 1) (by omega) st1 st'
        (by rw [hkpeq]; exact hkp) h
      refine ⟨?_, by rw [hkpRest, hkpeq]⟩
      intro k h1 h2
      rcases eq_or_lt_of_le h1 with rfl | hlt
      · exact hia
      · exact hconsRest k (by omega) (by omega)

lemma mem_pairList {spinCnt nk : ℕ} {p : ℕ × ℕ} :
    p ∈ pairList spinCnt nk ↔ p.1 < spinCnt ∧ p.2 < nk := by
  obtain ⟨i, k⟩ := p
  simp only [pairList, List.mem_flatMap, List.mem_map, List.mem_range, Prod.mk.injEq]
  constructor
  · rintro ⟨a, ha, b, hb, rfl, rfl⟩
    exact ⟨ha, hb⟩
  · rintro ⟨hi, hk⟩
    exact ⟨i, hi, k, hk, rfl, rfl⟩

lemma pairList_decomp (s nk : ℕ) :
    pairList (s + 1) nk =
      ((List.range' 0 nk).map (fun k => (0, k))) ++
        ((List.range' 1 s).flatMap (fun i => (List.range' 0 nk).map (fun k => (i, k)))) := by
  unfold pairList
  rw [List.range_eq_range' (s + 1), List.range_eq_range' nk, List.range'_succ]
  simp only [List.flatMap_cons]

/-- Forward run of all spin segments from 1 upward, preserving the stored
spin-0 k-points. -/
lemma decodeAux_spins_seg {P : Geom} {gamma : Bool} {spinCnt nb nk : ℕ}
    {recs : ℕ → ℕ → KRecord} :
    ∀ (m s0 : ℕ), s0 ≠ 0 → ∀ (st : DecSt),
      st.kpoints = (List.range nk).map (fun k => (recs 0 k).kpoint) →
      (∀ i, s0 ≤ i → i < s0 + m → ∀ k < nk, countOk P gamma recs i k) →
      (∀ i, s0 ≤ i → i < s0 + m → ∀ k < nk, consOk recs i k) →
      ∃ st', decodeAux P gamma spinCnt nb recs
          ((List.range' s0 m).flatMap (fun i => (List.range' 0 nk).map (fun k => (i, k)))) st
          = Except.ok st' ∧ st'.kpoints = st.kpoints
  | 0, s0, _, st, _, _, _ => ⟨st, rfl, rfl⟩
  | m + 1, s0, h0, st, hkp, hcount, hcons => by
    obtain ⟨st1, hs1, hk1⟩ := @decodeAux_spinI_seg P gamma spinCnt nb nk recs s0
      h0 nk 0 (by omega) st hkp
      (fun k _ h2 => hcount s0 le_rfl (by omega) k (by omega))
      (fun k _ h2 => hcons s0 le_rfl (by omega) k (by omega))
    obtain ⟨st', hs', hk'⟩ := decodeAux_spins_seg m (s0 + 1) (by omega) st1
      (by rw [hk1]; exact hkp)
      (fun i h1 h2 => hcount i (by omega) (by omega))
      (fun i h1 h2 => hcons i (by omega) (by omega))
    refine ⟨st', ?_, by rw [hk', hk1]⟩
    rw [List.range'_succ]
    simp only [List.flatMap_cons]
    rw [decodeAux_append_ok hs1]
    exact hs'

/-- Backward analysis of all spin segments from 1 upward. -/
lemma decodeAux_spins_seg_inv {P : Geom} {gamma : Bool} {spinCnt nb nk : ℕ}
    {recs : ℕ → ℕ → KRecord} :
    ∀ (m s0 : ℕ), s0 ≠ 0 → ∀ (st st' : DecSt),
      st.kpoints = (List.range nk).map (fun k => (recs 0 k).kpoint) →
      decodeAux P gamma spinCnt nb recs
          ((List.range' s0 m).flatMap (fun i => (List.range' 0 nk).map (fun k => (i, k)))) st
          = Except.ok st' →
      (∀ i, s0 ≤ i → i < s0 + m → ∀ k < nk, consOk recs i k) ∧ st'.kpoints = st.kpoints
  | 0, s0, _, st, st', _, h => by
    simp only [List.range', List.flatMap_nil, decodeAux] at h
    obtain rfl := Except.ok.inj h
    exact ⟨fun i h1 h2 => absurd h2 (by omega), rfl⟩
  | m + 1, s0, h0, st, st', hkp, h => by
    rw [List.range'_succ] at h
    simp only [List.flatMap_cons] at h
    obtain ⟨st1, hseg, hrest⟩ := decodeAux_append_inv h
    obtain ⟨hcons1, hkp1⟩ := @decodeAux_spinI_seg_inv P gamma spinCnt nb nk recs s0
      h0 nk 0 (by omega) st st1 hkp hseg
    obtain ⟨hrec, hkp'⟩ := decodeAux_spins_seg_inv m (s0 + 1) (by omega) st1 st'
      (by rw [hkp1]; exact hkp) hrest
    refine ⟨?_, by rw [hkp', hkp1]⟩
    intro i h1 h2 k hk
    rcases eq_or_lt_of_le h1 with rfl | hlt
    · exact hcons1 k (by omega) (by omega)
    · exact hrec i (by omega) (by omega) k hk

/-- Full decode succeeds when every count check and every spin-consistency
assert passes, and then the stored k-points are the spin-0 coordinates. -/
lemma decode_ok_of {P : Geom} {gamma : Bool} {spinCnt nk nb : ℕ}
    {recs : ℕ → ℕ → KRecord}
    (hcount : ∀ i < spinCnt, ∀ k < nk, countOk P gamma recs i k)
    (hcons : ∀ i, 1 ≤ i → i < spinCnt → ∀ k < nk, consOk recs i k) :
    ∃ st', decode P gamma spinCnt nk nb recs = Except.ok st' ∧
      (spinCnt = 0 ∨
        st'.kpoints = (List.range nk).map (fun k => (recs 0 k).kpoint)) := by
  cases spinCnt with
  | zero => exact ⟨initDecSt, rfl, Or.inl rfl⟩
  | succ s =>
    obtain ⟨st0, hs0, hk0⟩ := @decodeAux_spin0_seg P gamma (s + 1) nb recs nk 0 initDecSt
      (fun k h1 h2 => hcount 0 (by omega) k (by omega))
    have hkfull : st0.kpoints = (List.range nk).map (fun k => (recs 0 k).kpoint) := by
      rw [hk0, List.range_eq_range' nk]
      simp [initDecSt]
    obtain ⟨st', hs', hk'⟩ := @decodeAux_spins_seg P gamma (s + 1) nb nk recs
      s 1 (by omega) st0 hkfull
      (fun i h1 h2 => hcount i (by omega))
      (fun i h1 h2 => hcons i h1 (by omega))
    refine ⟨st', ?_, Or.inr (by rw [hk', hkfull])⟩
    unfold decode
    rw [pairList_decomp, decodeAux_append_ok hs0]
    exact hs'

/-- Everything a successful full decode guarantees: all count checks held,
all spin-consistency asserts held, and (when there is at least one spin
channel) the stored k-points are the spin-0 coordinates. -/
lemma decode_ok_inv {P : Geom} {gamma : Bool} {spinCnt nk nb : ℕ}
    {recs : ℕ → ℕ → KRecord} {st' : DecSt}
    (h : decode P gamma spinCnt nk nb recs = Except.ok st') :
    (∀ i < spinCnt, ∀ k < nk, countOk P gamma recs i k) ∧
    (∀ i, 1 ≤ i → i < spinCnt → ∀ k < nk, consOk recs i k) ∧
    (spinCnt = 0 ∨
      st'.kpoints = (List.range nk).map (fun k => (recs 0 k).kpoint)) := by
  have hcount : ∀ i < spinCnt, ∀ k < nk, countOk P gamma recs i k := by
    intro i hi k hk
    exact decodeAux_ok_countOk h (i, k) (mem_pairList.mpr ⟨hi, hk⟩)
  cases spinCnt with
  | zero => exact ⟨hcount, fun i h1 h2 => absurd h2 (by omega), Or.inl rfl⟩
  | succ s =>
    unfold decode at h
    rw [pairList_decomp] at h
    obtain ⟨st0, hseg0, hrest⟩ := decodeAux_append_inv h
    obtain ⟨st0', hs0', hk0'⟩ := @decodeAux_spin0_seg P gamma (s + 1) nb recs nk 0 initDecSt
      (fun k h1 h2 => hcount 0 (by omega) k (by omega))
    have heq : st0' = st0 := by
      rw [hs0'] at hseg0
      exact Except.ok.inj hseg0
    have hkfull : st0.kpoints = (List.range nk).map (fun k => (recs 0 k).kpoint) := by
      rw [← heq, hk0', List.range_eq_range' nk]
      simp [initDecSt]
    obtain ⟨hconsAll, hkp'⟩ := @decodeAux_spins_seg_inv P gamma (s + 1) nb nk recs
      s 1 (by omega) st0 st' hkfull hrest
    refine ⟨hcount, ?_, Or.inr (by rw [hkp', hkfull])⟩
    intro i h1 h2 k hk
    exact hconsAll i h1 (by omega) k hk

/-- Claim C1: for every pre-parsed input file (any record contents, any spin
count, both gamma and non-gamma modes), the decode succeeds only if, at every
processed (spin, k-point) pair, the generated G-vector count equals the
declared plane-wave count of that block — any mismatch aborts the decode with
the ValueError of Wavecar.py:211-213 — and conversely, when every count
matches (and the independent spin-consistency asserts also hold), the decode
runs to completion. -/
theorem decode_enforces_gvector_count (P : Geom) (gamma : Bool)
    (spinCnt nk nb : ℕ) (recs : ℕ → ℕ → KRecord) :
    (∀ st', decode P gamma spinCnt nk nb recs = Except.ok st' →
      ∀ i < spinCnt, ∀ k < nk, countOk P gamma recs i k) ∧
    ((∀ i < spinCnt, ∀ k < nk, countOk P gamma recs i k) →
     (∀ i, 1 ≤ i → i < spinCnt → ∀ k < nk, consOk recs i k) →
     ∃ st', decode P gamma spinCnt nk nb recs = Except.ok st') := by
  constructor
  · intro st' h
    exact (decode_ok_inv h).1
  · intro h1 h2
    obtain ⟨st', hok, _⟩ := decode_ok_of h1 h2
    exact ⟨st', hok⟩

/-- Concrete two-spin, one-k-point file whose declared plane-wave count 6
matches the generator's output for `P0` at the gamma point in default mode. -/
def wrecsC1 : ℕ → ℕ → KRecord :=
  fun _ _ => { nplane := 6, kpoint := Vec3.zero, enocc := [(0, 0, 1)], cdata := [[⟨1, 0⟩]] }

/-- Witness for C1: on `wrecsC1` every hypothesis of the theorem holds
concretely and the decode succeeds. -/
theorem decode_enforces_gvector_count_witness :
    (∀ i < 2, ∀ k < 1, countOk P0 false wrecsC1 i k) ∧
    (∀ i, 1 ≤ i → i < 2 → ∀ k < 1, consOk wrecsC1 i k) ∧
    (∃ st', decode P0 false 2 1 1 wrecsC1 = Except.ok st') := by
  have hcount : ∀ i < 2, ∀ k < 1, countOk P0 false wrecsC1 i k := by
    intro i _ k _
    show ((generateGPoints P0 (wrecsC1 i k).kpoint false).length : ℤ) = (wrecsC1 i k).nplane
    norm_num [wrecsC1, generateGPoints, P0, kinE, wrapIdx, Vec3.zero, Vec3.add, Vec3.dot,
      Mat3.vecMul, GVec.toVec3, List.range_succ, List.filterMap_cons]
  have hcons : ∀ i, 1 ≤ i → i < 2 → ∀ k < 1, consOk wrecsC1 i k := by
    intro i _ _ k _
    show allclose (wrecsC1 0 k).kpoint (wrecsC1 i k).kpoint
    norm_num [wrecsC1, allclose, isclose, Vec3.zero]
  exact ⟨hcount, hcons,
    (decode_enforces_gvector_count P0 false 2 1 1 wrecsC1).2 hcount hcons⟩

/-- Claim C6: on a two-spin-channel file, if the k-point coordinates re-read
under spin channel 1 differ beyond the np.allclose tolerance from the spin-0
coordinates at any index, the decode fails fatally (the assert of
Wavecar.py:189, or an earlier fatal check); if they all match within
tolerance (and the count checks pass), decoding completes and the stored
`self.kpoints` are exactly the spin-channel-0 coordinates. -/
theorem decode_spin_consistency (P : Geom) (gamma : Bool) (nk nb : ℕ)
    (recs : ℕ → ℕ → KRecord) :
    ((∃ k, k < nk ∧ ¬ consOk recs 1 k) →
      ∀ st', decode P gamma 2 nk nb recs ≠ Except.ok st') ∧
    ((∀ k < nk, consOk recs 1 k) →
     (∀ i < 2, ∀ k < nk, countOk P gamma recs i k) →
     ∃ st', decode P gamma 2 nk nb recs = Except.ok st' ∧
       st'.kpoints = (List.range nk).map (fun k => (recs 0 k).kpoint)) := by
  constructor
  · rintro ⟨k, hk, hbad⟩ st' hok
    exact hbad ((decode_ok_inv hok).2.1 1 le_rfl (by omega) k hk)
  · intro hcons hcount
    obtain ⟨st', hok, hkp⟩ := decode_ok_of hcount
      (fun i h1 h2 k hk => by
        have hi1 : i = 1 := by omega
        subst hi1
        exact hcons k hk)
    rcases hkp with h0 | hkp
    · exact absurd h0 (by omega)
    · exact ⟨st', hok, hkp⟩

/-- Crafted two-spin file whose spin-channel-1 k-point (1,0,0) differs from
the spin-channel-0 k-point (0,0,0) far beyond the allclose tolerance. -/
def wrecsC6 : ℕ → ℕ → KRecord :=
  fun i _ =>
    if i = 0 then { nplane := 6, kpoint := Vec3.zero, enocc := [], cdata := [] }
    else { nplane := 6, kpoint := ⟨1, 0, 0⟩, enocc := [], cdata := [] }

/-- Witness for C6: the crafted skewed file is rejected. -/
theorem decode_spin_consistency_witness :
    (∃ k, k < 1 ∧ ¬ consOk wrecsC6 1 k) ∧
    (∀ st', decode P0 false 2 1 1 wrecsC6 ≠ Except.ok st') := by
  have hbad : ¬ consOk wrecsC6 1 0 := by
    show ¬ allclose (wrecsC6 0 0).kpoint (wrecsC6 1 0).kpoint
    norm_num [wrecsC6, allclose, isclose, Vec3.zero]
  exact ⟨⟨0, by omega, hbad⟩,
    (decode_spin_consistency P0 false 1 1 wrecsC6).1 ⟨0, by omega, hbad⟩⟩
